import Mathlib

/-!
Verification development for the `find_chess_positions` scripts: a shallow
embedding of the decision logic of `find_backwards_knights.py`, the row
scanning of `find_lichess_puzzles.py`, and the per-game classification of
`filter_pgn_by_score.py`, together with theorems settling the documented
properties of those scripts.

Conventions of the embedding:
* Moves are represented by their UCI strings (the scripts compare moves by
  UCI string equality and by membership in the legal-move list).
* Engine responses are modelled by an oracle record: the MultiPV query
  result and, for each move pushed on the board, the preliminary-limit and
  full-limit `analyse` results.  An `Except.error ()` models a raised
  exception, `Except.ok none` models a response carrying no score, and
  `Except.ok (some v)` models a response whose score converts to the
  centipawn integer `v` (the white/black point-of-view conversion performed
  by `score_obj.white()/.black()` is delegated to the chess library and not
  re-modelled; only the resulting integer matters to the scripts).
* Python `int(...)` on header strings is modelled by `pyInt` (optionally
  signed decimal literals, surrounding whitespace stripped); Python
  truthiness of strings/lists is the corresponding emptiness test.
-/

/-- Side to move, `board.turn` of the scripts. -/
inductive Color : Type
  | white
  | black
  deriving DecidableEq, Repr

/-- Chess piece kinds, `piece.piece_type` of the scripts. -/
inductive PieceType : Type
  | pawn
  | knight
  | bishop
  | rook
  | queen
  | king
  deriving DecidableEq, Repr

/-- Backward-knight detection of `find_backwards_knights.py` lines 116-126:
the piece on the from-square must be a knight, and the destination rank is
compared against the origin rank according to the side to move (`piece` is
`none` when no piece stands on the from-square, in which case the flag
stays false, as in the source's `if piece and ...`). -/
def isBackward (turn : Color) (piece : Option PieceType)
    (fromRank toRank : Nat) : Bool :=
  match piece with
  | some PieceType.knight =>
    match turn with
    | Color.white => decide (toRank < fromRank)
    | Color.black => decide (fromRank < toRank)
  | _ => false

/-- The score comparison used at both stages (lines 258 and 328):
`backward_score >= best_score + SCORE_THRESHOLD`. -/
def scoreComparePasses (backwardScore altScore threshold : Int) : Bool :=
  decide (altScore + threshold ≤ backwardScore)

/-- Engine oracle: the responses the external UCI engine would give for the
queries the script can issue at one candidate position.  `multipv` is the
result of the initial MultiPV-2 `analyse` call, given as the list of pv
move-lists of the returned lines; `prelimScore m` / `fullScore m` are the
results of `analyse` on the board after pushing move `m`, under the
preliminary and the full time/depth limits respectively. -/
structure EngineOracle : Type where
  multipv : Except Unit (List (List String))
  prelimScore : String → Except Unit (Option Int)
  fullScore : String → Except Unit (Option Int)

/-- Selection of the best alternative move from the MultiPV result
(lines 159-184): take PV1's first move unless it is the backward move or
not legal; if PV1 starts with the backward move, fall through to PV2's
first move under the same conditions.  `none` models `best_move` remaining
`None`, which sets `prelim_failed`. -/
def selectAlternative (results : List (List String)) (backwardUci : String)
    (legalMoves : List String) : Option String :=
  match results with
  | [] => none
  | pv1 :: rest =>
    match pv1 with
    | [] => none
    | c1 :: _ =>
      if c1 = backwardUci then
        match rest with
        | [] => none
        | pv2 :: _ =>
          match pv2 with
          | [] => none
          | c2 :: _ =>
            if c2 = backwardUci then none
            else if c2 ∈ legalMoves then some c2
            else none
      else if c1 ∈ legalMoves then some c1
      else none

/-- Line 254: whether the engine's PV1 starts with the backward move
(`engine_top_choice_was_backward`). -/
def engineTopChoiceWasBackward (results : List (List String))
    (backwardUci : String) : Bool :=
  match results with
  | (c :: _) :: _ => c = backwardUci
  | _ => false

/-- The preliminary stage (lines 147-243) up to the score comparison:
run the MultiPV query, select the alternative move, then score the
alternative and the backward move under the preliminary limits.  Returns
`some (bestMove, bestScore, backwardScore)` exactly when `prelim_failed`
is still false and both scores were obtained; any engine exception,
missing score, or failure to identify an alternative yields `none`. -/
def prelimOutcome (o : EngineOracle) (backwardUci : String)
    (legalMoves : List String) : Option (String × Int × Int) :=
  match o.multipv with
  | Except.error _ => none
  | Except.ok results =>
    match selectAlternative results backwardUci legalMoves with
    | none => none
    | some bestMove =>
      match o.prelimScore bestMove with
      | Except.error _ => none
      | Except.ok none => none
      | Except.ok (some bestScore) =>
        match o.prelimScore backwardUci with
        | Except.error _ => none
        | Except.ok none => none
        | Except.ok (some backwardScore) =>
          some (bestMove, bestScore, backwardScore)

/-- `run_full_analysis` after the preliminary comparison (lines 245-270):
true exactly when the preliminary stage produced both scores and the
backward score clears the alternative score by the threshold. -/
def prelimPasses (threshold : Int) (o : EngineOracle) (legalMoves : List String)
    (backwardUci : String) : Bool :=
  match prelimOutcome o backwardUci legalMoves with
  | some (_, bestScore, backwardScore) =>
    scoreComparePasses backwardScore bestScore threshold
  | none => false

/-- The full-analysis stage (lines 273-324): analyse the backward move,
then the single alternative move identified by the preliminary stage,
both under the full limits.  Returns `some (backwardFull, altFull)` when
`analysis_successful` holds with both scores present.  The alternative is
queried only if the backward move's analysis succeeded, as in the source. -/
def fullOutcome (o : EngineOracle) (backwardUci : String)
    (bestMove : Option String) : Option (Int × Int) :=
  match o.fullScore backwardUci with
  | Except.error _ => none
  | Except.ok none => none
  | Except.ok (some backwardFull) =>
    match bestMove with
    | none => none
    | some m =>
      match o.fullScore m with
      | Except.error _ => none
      | Except.ok none => none
      | Except.ok (some altFull) => some (backwardFull, altFull)

/-- The record appended to `positions` (lines 336-346), restricted to the
fields the decision logic computes.  The game headers, FEN, move number
and SAN rendering are carried metadata produced by the chess library and
are not re-modelled. -/
structure PositionRecord : Type where
  solutionUci : String
  altUci : String
  solutionScore : Int
  nextBestScore : Int
  deriving DecidableEq, Repr

/-- The whole per-candidate-position decision (lines 128-359) for a
detected backward knight move: positions with at most one legal move are
pushed without analysis (lines 134-136) and never recorded; otherwise the
preliminary stage runs, and only if its comparison passes does the full
stage run; a record is emitted exactly when the full comparison also
passes. -/
def decidePosition (threshold : Int) (o : EngineOracle)
    (legalMoves : List String) (backwardUci : String) : Option PositionRecord :=
  if legalMoves.length ≤ 1 then none
  else
    match prelimOutcome o backwardUci legalMoves with
    | none => none
    | some (bestMove, bestScore, backwardScore) =>
      if scoreComparePasses backwardScore bestScore threshold then
        match fullOutcome o backwardUci (some bestMove) with
        | none => none
        | some (backwardFull, altFull) =>
          if scoreComparePasses backwardFull altFull threshold then
            some { solutionUci := backwardUci, altUci := bestMove,
                   solutionScore := backwardFull, nextBestScore := altFull }
          else none
      else none

/-- `SCORE_THRESHOLD` of `find_backwards_knights.py` (line 21). -/
def SCORE_THRESHOLD : Int := 300

/-- `MAX_POSITIONS` of `find_backwards_knights.py` (line 24). -/
def MAX_POSITIONS : Nat := 2000

/-- Accumulate the value of a run of decimal digit characters onto `acc`;
`none` as soon as a non-digit appears. -/
def digitsVal : List Char → Nat → Option Nat
  | [], acc => some acc
  | c :: rest, acc =>
    if c.isDigit then digitsVal rest (acc * 10 + (c.toNat - '0'.toNat))
    else none

/-- Drop leading whitespace characters. -/
def stripWsLeft : List Char → List Char
  | [] => []
  | c :: rest => if c.isWhitespace then stripWsLeft rest else c :: rest

/-- Drop whitespace from both ends (Python `str.strip()`). -/
def stripWs (cs : List Char) : List Char :=
  (stripWsLeft (stripWsLeft cs).reverse).reverse

/-- Model of Python `int(s)` on a header string: surrounding whitespace
stripped, then an optionally signed non-empty run of decimal digits;
`none` models the `ValueError` the scripts catch. -/
def pyInt (s : String) : Option Int :=
  match stripWs s.toList with
  | [] => none
  | '-' :: rest =>
    if rest = [] then none
    else (digitsVal rest 0).map (fun n => -(n : Int))
  | '+' :: rest =>
    if rest = [] then none
    else (digitsVal rest 0).map (fun n => (n : Int))
  | cs => (digitsVal cs 0).map (fun n => (n : Int))

/-- One mainline move of a game as the move walker sees it: the side to
move before the move, the piece on the from-square, origin and destination
ranks, the move's UCI string, the legal moves of the position, and the
engine's responses for the queries the script could issue there. -/
structure MoveStep : Type where
  turn : Color
  piece : Option PieceType
  fromRank : Nat
  toRank : Nat
  backwardUci : String
  legalMoves : List String
  oracle : EngineOracle

/-- A game as read from the PGN: the `WhiteElo` / `BlackElo` header values
(absent header modelled as `none`; the script substitutes `"0"`) and the
mainline moves. -/
structure GameRec : Type where
  whiteElo : Option String
  blackElo : Option String
  moves : List MoveStep

/-- The rating gate of lines 73-87: both Elo headers (defaulting to "0")
must parse as integers, and both must be at least 2200; otherwise the game
is skipped. -/
def gameEloOk (g : GameRec) : Bool :=
  match pyInt (g.whiteElo.getD "0"), pyInt (g.blackElo.getD "0") with
  | some w, some b => decide (2200 ≤ w) && decide (2200 ≤ b)
  | _, _ => false

/-- What one analysed move contributes to `positions` (lines 116-359): a
record exactly when the move is a detected backward knight move and the
decision pipeline emits one. -/
def stepRecord (threshold : Int) (s : MoveStep) : Option PositionRecord :=
  if isBackward s.turn s.piece s.fromRank s.toRank then
    decidePosition threshold s.oracle s.legalMoves s.backwardUci
  else none

/-- The per-game move loop (lines 93-367): walk the mainline, bumping the
full-move counter on White's turns, skipping the first 10 full moves,
running the decision pipeline on detected backward knight moves, and
breaking out of the loop as soon as the collected positions reach
`maxPositions` (the breaks at lines 349-351 and 365-367 both exit the
loop right after the length check, which the single bottom test models). -/
def processMoves (threshold : Int) (maxPositions : Nat) :
    List MoveStep → Nat → List PositionRecord → List PositionRecord
  | [], _, acc => acc
  | s :: rest, moveNum, acc =>
    let moveNum' := if s.turn = Color.white then moveNum + 1 else moveNum
    if moveNum' ≤ 10 then processMoves threshold maxPositions rest moveNum' acc
    else
      let acc' :=
        match stepRecord threshold s with
        | some r => acc ++ [r]
        | none => acc
      if maxPositions ≤ acc'.length then acc'
      else processMoves threshold maxPositions rest moveNum' acc'

/-- The outer game loop (lines 61-87 and the per-game walk): before each
game, stop if the collected positions already reached `maxPositions`
(line 63); games failing the rating gate are skipped; otherwise the game's
moves are processed with the move counter starting at 0. -/
def processGames (threshold : Int) (maxPositions : Nat) :
    List GameRec → List PositionRecord → List PositionRecord
  | [], acc => acc
  | g :: rest, acc =>
    if maxPositions ≤ acc.length then acc
    else if gameEloOk g then
      processGames threshold maxPositions rest
        (processMoves threshold maxPositions g.moves 0 acc)
    else processGames threshold maxPositions rest acc

/-- `find_critical_backward_knight_moves` restricted to its decision and
collection logic: scan the games starting from an empty position list. -/
def runFinder (threshold : Int) (maxPositions : Nat)
    (games : List GameRec) : List PositionRecord :=
  processGames threshold maxPositions games []

/-- One data row of the Lichess puzzle CSV as `filter_puzzles` of
`find_lichess_puzzles.py` reads it.  `rating` is the raw `Rating` cell
(parsed with `pyInt`; a parse failure is the `ValueError` the script
catches, skipping the row).  `firstMoveOk` models whether the
chess-library calls that apply the puzzle's first move succeed; an
exception there is caught by the generic handler and skips the row.  The
FEN/move rewriting itself is delegated to the chess library and not
re-modelled, so a selected row is reported as the row itself. -/
structure PuzzleRow : Type where
  puzzleId : String
  rating : String
  themes : List String
  firstMoveOk : Bool
  deriving DecidableEq, Repr

/-- The per-row filtering logic of lines 58-103: rating parses and lies in
the configured range; if a desired-themes list is given and non-empty
(Python truthiness), at least one of its themes appears; if an
excluded-themes list is given and non-empty, none of its themes appears;
and the first-move application succeeds. -/
def rowSelected (minRating maxRating : Int) (desired excluded : Option (List String))
    (row : PuzzleRow) : Bool :=
  match pyInt row.rating with
  | none => false
  | some rt =>
    if ¬ (minRating ≤ rt ∧ rt ≤ maxRating) then false
    else
      let desiredOk :=
        match desired with
        | some (d :: ds) => (d :: ds).any (fun t => row.themes.contains t)
        | _ => true
      let excludedOk :=
        match excluded with
        | some (e :: es) => !(e :: es).any (fun t => row.themes.contains t)
        | _ => true
      desiredOk && excludedOk && row.firstMoveOk

/-- Rows `a` through `b` of the dataset, 1-indexed and inclusive, as the
segment loop of lines 44-55 visits them (an empty segment when `b < a`,
matching the immediate `i > end_row` break). -/
def segmentRows (rows : List PuzzleRow) (a b : Nat) : List PuzzleRow :=
  if b < a then [] else (rows.drop (a - 1)).take (b - a + 1)

/-- The order in which `filter_puzzles` visits the dataset's rows, given
the randomly drawn 1-indexed starting row (lines 16-37): when
`random_start > total_rows // 2` the script processes rows 1 to
`random_start - 1` first and then `random_start` to the end; otherwise it
processes `random_start` to the end first and then wraps to the
beginning. -/
def visitOrder (rows : List PuzzleRow) (randomStart : Nat) : List PuzzleRow :=
  let total := rows.length
  if total / 2 < randomStart then
    segmentRows rows 1 (randomStart - 1) ++ segmentRows rows randomStart total
  else
    segmentRows rows randomStart total ++ segmentRows rows 1 (randomStart - 1)

/-- The visiting order the specification describes: start at the random
row, continue through the last row, then wrap around to the beginning.
Modelled from the spec's words, to be compared with `visitOrder`. -/
def specVisitOrder (rows : List PuzzleRow) (randomStart : Nat) : List PuzzleRow :=
  segmentRows rows randomStart rows.length ++ segmentRows rows 1 (randomStart - 1)

/-- The row-collection loop over the visited rows (lines 53-116): selected
rows are appended in visit order, and as soon as the running count reaches
the cap the function returns immediately with what it has (`return
selected_puzzles` at line 105; the cap is active only when `max_puzzles`
is truthy, i.e. not `None` and not 0). -/
def collectPuzzles (minRating maxRating : Int) (desired excluded : Option (List String))
    (capActive : Bool) (cap : Nat) :
    List PuzzleRow → Nat → List PuzzleRow
  | [], _ => []
  | row :: rest, count =>
    if rowSelected minRating maxRating desired excluded row then
      if capActive && decide (cap ≤ count + 1) then [row]
      else row :: collectPuzzles minRating maxRating desired excluded capActive cap
        rest (count + 1)
    else collectPuzzles minRating maxRating desired excluded capActive cap rest count

/-- `filter_puzzles` of `find_lichess_puzzles.py`, parameterised by the
value `randomStart` that `random.randint(1, total_rows)` drew (the random
draw itself is external): empty dataset returns nothing (lines 12-14);
otherwise the rows are visited in `visitOrder` and collected under the
cap. -/
def filterPuzzles (rows : List PuzzleRow) (randomStart : Nat)
    (minRating maxRating : Int) (desired excluded : Option (List String))
    (maxPuzzles : Option Nat) : List PuzzleRow :=
  if rows.length = 0 then []
  else
    collectPuzzles minRating maxRating desired excluded
      (maxPuzzles.getD 0 ≠ 0) (maxPuzzles.getD 0)
      (visitOrder rows randomStart) 0

/-- Default `score_threshold` of `filter_pgn_by_score.py` (line 5). -/
def defaultScoreThreshold : Int := -200

/-- What happens to one game inside the loop of `filter_pgn_by_score.py`
(lines 17-45). -/
inductive GameOutcome : Type
  | written
  | counted
  | ignored
  | crash
  deriving DecidableEq, Repr

/-- Worker for `pySplitWs`: `cur` holds the current field's characters in
reverse. -/
def splitWsAux : List Char → List Char → List String
  | [], cur => if cur = [] then [] else [String.mk cur.reverse]
  | c :: rest, cur =>
    if c.isWhitespace then
      if cur = [] then splitWsAux rest []
      else String.mk cur.reverse :: splitWsAux rest []
    else splitWsAux rest (c :: cur)

/-- Model of Python `s.split()` with no separator: split on whitespace
runs, discarding empty pieces. -/
def pySplitWs (s : String) : List String :=
  splitWsAux s.toList []

/-- Classification of one game by `filter_puzzles` of
`filter_pgn_by_score.py` (lines 22-45): a missing or empty (falsy)
`SolutionScore` header, or one that fails integer parsing (`ValueError`
caught), leaves the game neither written nor counted; with a parsed score,
a missing or empty (falsy) `FEN` header also leaves it neither written nor
counted, because the score comparison is nested under `if fen:`; a
non-empty `FEN` with fewer than two whitespace-separated fields makes
`fen.split()[1]` raise an `IndexError` that no handler catches; otherwise
the game is written when the score strictly exceeds the threshold and
counted as dropped when it does not. -/
def classifyGame (threshold : Int) (solutionScore fen : Option String) :
    GameOutcome :=
  match solutionScore with
  | none => GameOutcome.ignored
  | some ss =>
    if ss = "" then GameOutcome.ignored
    else
      match pyInt ss with
      | none => GameOutcome.ignored
      | some v =>
        match fen with
        | none => GameOutcome.ignored
        | some f =>
          if f = "" then GameOutcome.ignored
          else
            match (pySplitWs f).get? 1 with
            | none => GameOutcome.crash
            | some _ =>
              if threshold < v then GameOutcome.written
              else GameOutcome.counted

/-- The whole scan of `filter_pgn_by_score.py`'s `filter_puzzles` over the
input games, each given by its `SolutionScore` and `FEN` header values:
the kept games in input order together with the reported drop count, or
`Except.error ()` when some game's `FEN` crashes the loop. -/
def filterPgnByScore (threshold : Int) :
    List (Option String × Option String) →
    Except Unit (List (Option String × Option String) × Nat)
  | [] => Except.ok ([], 0)
  | g :: rest =>
    match classifyGame threshold g.1 g.2 with
    | GameOutcome.crash => Except.error ()
    | oc =>
      match filterPgnByScore threshold rest with
      | Except.error e => Except.error e
      | Except.ok (kept, dropped) =>
        Except.ok ((if oc = GameOutcome.written then g :: kept else kept),
          dropped + (if oc = GameOutcome.counted then 1 else 0))

/-- An oracle on whose position both stages succeed: the engine's top line
is the alternative `m` with score 0 at both effort levels, while the
backward move `b` scores 400 at both, clearing the 300 threshold. -/
def passOracle : EngineOracle where
  multipv := Except.ok [["m"]]
  prelimScore := fun mv => if mv = "b" then Except.ok (some 400) else Except.ok (some 0)
  fullScore := fun mv => if mv = "b" then Except.ok (some 400) else Except.ok (some 0)

/-- An oracle whose backward move clears the preliminary threshold against
the identified alternative `m` and clears it again in the full stage, but
whose third legal move `x` has a full-stage score the backward move does
not exceed by the threshold.  The script never queries `x`. -/
def cexOracleA : EngineOracle where
  multipv := Except.ok [["m"], ["b"]]
  prelimScore := fun mv => if mv = "b" then Except.ok (some 1000) else Except.ok (some 0)
  fullScore := fun mv =>
    if mv = "b" then Except.ok (some 1000)
    else if mv = "m" then Except.ok (some 0)
    else Except.ok (some 900)

/-- An oracle whose top line starts with the backward move `b` (score 100)
while PV2's move `m` scores 0: the backward move is the engine's top
suggestion but misses the 300-centipawn margin. -/
def cexOracleB : EngineOracle where
  multipv := Except.ok [["b"], ["m"]]
  prelimScore := fun mv => if mv = "b" then Except.ok (some 100) else Except.ok (some 0)
  fullScore := fun _ => Except.ok none

/-- An oracle whose MultiPV query raises (models a thrown engine
exception). -/
def failOracle : EngineOracle where
  multipv := Except.error ()
  prelimScore := fun _ => Except.error ()
  fullScore := fun _ => Except.error ()

/-- An oracle whose two lines both start with the backward move `b`: no
alternative can be selected. -/
def tieOracle : EngineOracle where
  multipv := Except.ok [["b"], ["b", "z"]]
  prelimScore := fun _ => Except.ok (some 0)
  fullScore := fun _ => Except.ok (some 0)

/-- An oracle sitting exactly on the inclusive boundary: the backward move
`b` scores exactly `0 + 300` against the alternative's 0 at both stages. -/
def boundaryOracle : EngineOracle where
  multipv := Except.ok [["m"]]
  prelimScore := fun mv => if mv = "b" then Except.ok (some 300) else Except.ok (some 0)
  fullScore := fun mv => if mv = "b" then Except.ok (some 300) else Except.ok (some 0)

/-- A dataset row used by the C7 material. -/
def cexRowA : PuzzleRow :=
  { puzzleId := "a", rating := "1500", themes := [], firstMoveOk := true }

/-- A dataset row used by the C7 material. -/
def cexRowB : PuzzleRow :=
  { puzzleId := "b", rating := "1500", themes := [], firstMoveOk := true }

/-- A dataset row used by the C7 material. -/
def cexRowC : PuzzleRow :=
  { puzzleId := "c", rating := "1500", themes := [], firstMoveOk := true }

/-- Any alternative selected from the MultiPV result is distinct from the
backward move and legal. -/
theorem selectAlternative_sound (results : List (List String)) (backwardUci : String)
    (legalMoves : List String) (m : String)
    (h : selectAlternative results backwardUci legalMoves = some m) :
    m ≠ backwardUci ∧ m ∈ legalMoves := by
  unfold selectAlternative at h
  split at h
  · exact absurd h (by simp)
  next pv1 rest =>
    split at h
    · exact absurd h (by simp)
    next c1 t1 =>
      split at h
      · split at h
        · exact absurd h (by simp)
        next pv2 rest2 =>
          split at h
          · exact absurd h (by simp)
          next c2 t2 =>
            split at h
            · exact absurd h (by simp)
            · split at h
              · next hne hmem =>
                  cases h
                  exact ⟨hne, hmem⟩
              · exact absurd h (by simp)
      · split at h
        · next hne hmem =>
            cases h
            exact ⟨hne, hmem⟩
        · exact absurd h (by simp)

/-- A successful preliminary outcome records the engine's MultiPV answer
and the selected alternative. -/
theorem prelimOutcome_sound (o : EngineOracle) (backwardUci : String)
    (legalMoves : List String) (bm : String) (bs ks : Int)
    (h : prelimOutcome o backwardUci legalMoves = some (bm, bs, ks)) :
    ∃ results, o.multipv = Except.ok results ∧
      selectAlternative results backwardUci legalMoves = some bm ∧
      o.prelimScore bm = Except.ok (some bs) ∧
      o.prelimScore backwardUci = Except.ok (some ks) := by
  unfold prelimOutcome at h
  split at h
  · exact absurd h (by simp)
  next results hmp =>
    refine ⟨results, hmp, ?_⟩
    split at h
    · exact absurd h (by simp)
    next bm' hsel =>
      split at h
      · exact absurd h (by simp)
      · exact absurd h (by simp)
      next bs' hbs =>
        split at h
        · exact absurd h (by simp)
        · exact absurd h (by simp)
        next ks' hks =>
          cases h
          exact ⟨hsel, hbs, hks⟩

/-- A successful full outcome records the two full-limit engine answers. -/
theorem fullOutcome_sound (o : EngineOracle) (backwardUci m : String)
    (bf af : Int)
    (h : fullOutcome o backwardUci (some m) = some (bf, af)) :
    o.fullScore backwardUci = Except.ok (some bf) ∧
      o.fullScore m = Except.ok (some af) := by
  unfold fullOutcome at h
  cases hb : o.fullScore backwardUci with
  | error e => rw [hb] at h; simp at h
  | ok sc =>
    rw [hb] at h
    cases sc with
    | none => simp at h
    | some bf' =>
      simp only at h
      cases ha : o.fullScore m with
      | error e => rw [ha] at h; simp at h
      | ok sc2 =>
        rw [ha] at h
        cases sc2 with
        | none => simp at h
        | some af' =>
          simp only at h
          cases h
          exact ⟨rfl, rfl⟩

/-- Everything an emitted record implies about the run: more than one
legal move, a preliminary outcome whose comparison passed, and full-limit
scores for the backward move and the selected alternative whose comparison
passed as well. -/
theorem decidePosition_sound (threshold : Int) (o : EngineOracle)
    (legalMoves : List String) (backwardUci : String) (r : PositionRecord)
    (h : decidePosition threshold o legalMoves backwardUci = some r) :
    1 < legalMoves.length ∧
      r.solutionUci = backwardUci ∧
      (∃ bs ks, prelimOutcome o backwardUci legalMoves = some (r.altUci, bs, ks) ∧
        scoreComparePasses ks bs threshold = true) ∧
      o.fullScore backwardUci = Except.ok (some r.solutionScore) ∧
      o.fullScore r.altUci = Except.ok (some r.nextBestScore) ∧
      scoreComparePasses r.solutionScore r.nextBestScore threshold = true := by
  unfold decidePosition at h
  split at h
  · exact absurd h (by simp)
  next hlen =>
    refine ⟨by omega, ?_⟩
    split at h
    · exact absurd h (by simp)
    next bm bs ks hp =>
      split at h
      next hcmp =>
        split at h
        · exact absurd h (by simp)
        next bf af hf =>
          split at h
          next hcmp2 =>
            cases h
            obtain ⟨hb, ha⟩ := fullOutcome_sound o backwardUci bm bf af hf
            exact ⟨rfl, ⟨bs, ks, hp, hcmp⟩, hb, ha, hcmp2⟩
          · exact absurd h (by simp)
      · exact absurd h (by simp)

/-- C3: a move is flagged as a backward knight move iff the moved piece is
a knight and its destination rank is strictly behind its origin rank for
the mover: no flag for non-knight pieces; for White iff the destination
rank is below the origin rank; for Black iff it is above. -/
theorem c3_backward_flag_characterisation :
    ∀ (turn : Color) (piece : Option PieceType) (fromRank toRank : Nat),
      isBackward turn piece fromRank toRank = true ↔
        (piece = some PieceType.knight ∧
          ((turn = Color.white ∧ toRank < fromRank) ∨
           (turn = Color.black ∧ fromRank < toRank))) := by
  intro turn piece fromRank toRank
  cases piece with
  | none => simp [isBackward]
  | some p => cases p <;> cases turn <;> simp [isBackward]

/-- C5: the margin comparison is inclusive (`>=`) at both stages: a
backward score exactly equal to the alternative's score plus the margin
passes the shared comparator, and a run sitting exactly on the boundary at
both stages emits a record. -/
theorem c5_margin_boundary_inclusive :
    (∀ (altScore threshold : Int),
      scoreComparePasses (altScore + threshold) altScore threshold = true) ∧
    decidePosition 300 boundaryOracle ["b", "m"] "b" =
      some { solutionUci := "b", altUci := "m",
             solutionScore := 300, nextBestScore := 0 } := by
  constructor
  · intro altScore threshold
    simp [scoreComparePasses]
  · rfl

/-- C4: a PositionRecord is emitted for a position only if the preliminary
comparison passed there (`run_full_analysis` requires the preliminary
stage's inclusive margin check, and the full stage runs only under it), and
only on positions with more than one legal move. -/
theorem c4_full_pass_requires_prelim_pass :
    ∀ (threshold : Int) (o : EngineOracle) (legalMoves : List String)
      (backwardUci : String) (r : PositionRecord),
      decidePosition threshold o legalMoves backwardUci = some r →
        prelimPasses threshold o legalMoves backwardUci = true ∧
        1 < legalMoves.length := by
  intro threshold o legalMoves backwardUci r h
  obtain ⟨hlen, _, ⟨bs, ks, hp, hcmp⟩, _⟩ :=
    decidePosition_sound threshold o legalMoves backwardUci r h
  refine ⟨?_, hlen⟩
  unfold prelimPasses
  rw [hp]
  exact hcmp

/-- Witness for C4: on `passOracle` a record is emitted, and indeed the
preliminary stage passed with two legal moves. -/
theorem c4_witness :
    prelimPasses 300 passOracle ["b", "m"] "b" = true ∧
      1 < (["b", "m"] : List String).length :=
  c4_full_pass_requires_prelim_pass 300 passOracle ["b", "m"] "b"
    { solutionUci := "b", altUci := "m", solutionScore := 400, nextBestScore := 0 }
    (by rfl)

/-- Counterexample to C1: with three legal moves `b` (backward), `m` and
`x`, the pipeline emits a record because the backward move clears the
margin over the single preliminary-selected alternative `m`, even though
the legal alternative `x` — never analysed by the full stage — has a full
score (900) that the backward move's 1000 does not exceed by the
300-centipawn margin.  The full stage does not analyse every legal
alternative and the emitted record does not certify dominance over all of
them. -/
theorem c1_counterexample :
    decidePosition 300 cexOracleA ["b", "m", "x"] "b" =
      some { solutionUci := "b", altUci := "m",
             solutionScore := 1000, nextBestScore := 0 } ∧
    "x" ∈ ["b", "m", "x"] ∧ "x" ≠ "b" ∧
    cexOracleA.fullScore "x" = Except.ok (some 900) ∧
    scoreComparePasses 1000 900 300 = false := by
  exact ⟨rfl, by decide, by decide, rfl, by decide⟩

/-- C1 as amended: the full stage analyses exactly two moves — the
backward move and the single alternative selected by the preliminary
MultiPV stage — and a record is emitted only if the backward move's full
score exceeds that one alternative's full score by at least the margin
(not every legal alternative's). -/
theorem c1_full_stage_single_alternative :
    ∀ (threshold : Int) (o : EngineOracle) (legalMoves : List String)
      (backwardUci : String) (r : PositionRecord),
      decidePosition threshold o legalMoves backwardUci = some r →
        r.solutionUci = backwardUci ∧
        (∃ bs ks, prelimOutcome o backwardUci legalMoves = some (r.altUci, bs, ks) ∧
          scoreComparePasses ks bs threshold = true) ∧
        o.fullScore backwardUci = Except.ok (some r.solutionScore) ∧
        o.fullScore r.altUci = Except.ok (some r.nextBestScore) ∧
        scoreComparePasses r.solutionScore r.nextBestScore threshold = true := by
  intro threshold o legalMoves backwardUci r h
  obtain ⟨_, hsol, hpre, hfb, hfa, hcmp⟩ :=
    decidePosition_sound threshold o legalMoves backwardUci r h
  exact ⟨hsol, hpre, hfb, hfa, hcmp⟩

/-- Witness for C1's amended statement, on `passOracle`. -/
theorem c1_witness :
    ("b" : String) = "b" ∧
      (∃ bs ks, prelimOutcome passOracle "b" ["b", "m"] = some ("m", bs, ks) ∧
        scoreComparePasses ks bs 300 = true) ∧
      passOracle.fullScore "b" = Except.ok (some 400) ∧
      passOracle.fullScore "m" = Except.ok (some 0) ∧
      scoreComparePasses 400 0 300 = true :=
  c1_full_stage_single_alternative 300 passOracle ["b", "m"] "b"
    { solutionUci := "b", altUci := "m", solutionScore := 400, nextBestScore := 0 }
    (by rfl)

/-- Counterexample to C2: on `cexOracleB` the backward move `b` is the
engine's top-ranked reply (PV1 starts with it), the preliminary stage
identifies PV2's move `m` as the alternative and obtains both scores
(100 for the backward move, 0 for the alternative), yet the preliminary
stage fails because 100 does not reach 0 + 300: being the top suggestion
does not by itself make the preliminary stage pass. -/
theorem c2_counterexample :
    engineTopChoiceWasBackward [["b"], ["m"]] "b" = true ∧
    cexOracleB.multipv = Except.ok [["b"], ["m"]] ∧
    prelimOutcome cexOracleB "b" ["b", "m"] = some ("m", 0, 100) ∧
    prelimPasses 300 cexOracleB ["b", "m"] "b" = false := by
  exact ⟨by decide, rfl, rfl, rfl⟩

/-- C2 as amended: the preliminary stage passes iff the MultiPV stage
identified an alternative (a legal move distinct from the backward move),
both preliminary scores were obtained, and the backward score is at least
the alternative's score plus the margin.  The backward move being the
engine's top suggestion plays no role in the comparison; it only means the
alternative is drawn from PV2 instead of PV1. -/
theorem c2_prelim_pass_characterisation :
    ∀ (threshold : Int) (o : EngineOracle) (legalMoves : List String)
      (backwardUci : String),
      prelimPasses threshold o legalMoves backwardUci = true ↔
        ∃ bestMove bestScore backwardScore,
          prelimOutcome o backwardUci legalMoves =
            some (bestMove, bestScore, backwardScore) ∧
          bestMove ≠ backwardUci ∧ bestMove ∈ legalMoves ∧
          scoreComparePasses backwardScore bestScore threshold = true := by
  intro threshold o legalMoves backwardUci
  constructor
  · intro h
    unfold prelimPasses at h
    split at h
    next bm bs ks hp =>
      obtain ⟨results, _, hsel, _⟩ :=
        prelimOutcome_sound o backwardUci legalMoves bm bs ks hp
      obtain ⟨hne, hmem⟩ :=
        selectAlternative_sound results backwardUci legalMoves bm hsel
      exact ⟨bm, bs, ks, hp, hne, hmem, h⟩
    · exact absurd h (by simp)
  · intro ⟨bm, bs, ks, hp, _, _, hcmp⟩
    unfold prelimPasses
    rw [hp]
    exact hcmp

/-- C9: when the engine's top line starts with the backward move and the
second line is absent, empty, also starts with the backward move, or
starts with an illegal move, no alternative is selected and the position
is disqualified.  The oracle's score queries are universally quantified:
the conclusion holds whatever they would answer, i.e. the script issues no
further query that could change the outcome. -/
theorem c9_backward_top_without_second_disqualifies :
    ∀ (threshold : Int) (o : EngineOracle) (legalMoves : List String)
      (backwardUci : String) (pv1Tail : List String) (rest : List (List String)),
      o.multipv = Except.ok ((backwardUci :: pv1Tail) :: rest) →
      (rest = [] ∨
        ∃ pv2 rest2, rest = pv2 :: rest2 ∧
          (pv2 = [] ∨ ∃ c2 t2, pv2 = c2 :: t2 ∧
            (c2 = backwardUci ∨ c2 ∉ legalMoves))) →
      selectAlternative ((backwardUci :: pv1Tail) :: rest) backwardUci legalMoves =
        none ∧
      decidePosition threshold o legalMoves backwardUci = none := by
  intro threshold o legalMoves backwardUci pv1Tail rest hmp hcond
  have hsel : selectAlternative ((backwardUci :: pv1Tail) :: rest) backwardUci
      legalMoves = none := by
    rcases hcond with h1 | ⟨pv2, rest2, hre, h2⟩
    · subst h1
      simp [selectAlternative]
    · subst hre
      rcases h2 with h2 | ⟨c2, t2, hpv, h3⟩
      · subst h2
        simp [selectAlternative]
      · subst hpv
        rcases h3 with h3 | h3
        · subst h3
          simp [selectAlternative]
        · rcases eq_or_ne c2 backwardUci with hc | hc <;>
            simp [selectAlternative, hc, h3]
  have hpre : prelimOutcome o backwardUci legalMoves = none := by
    unfold prelimOutcome
    rw [hmp]
    simp only
    rw [hsel]
  refine ⟨hsel, ?_⟩
  unfold decidePosition
  by_cases hlen : legalMoves.length ≤ 1
  · rw [if_pos hlen]
  · rw [if_neg hlen, hpre]

/-- Witness for C9: on `tieOracle` (both lines start with the backward
move) the position is disqualified. -/
theorem c9_witness :
    selectAlternative [["b"], ["b", "z"]] "b" ["b", "m"] = none ∧
      decidePosition 300 tieOracle ["b", "m"] "b" = none :=
  c9_backward_top_without_second_disqualifies 300 tieOracle ["b", "m"] "b"
    [] [["b", "z"]] rfl
    (Or.inr ⟨["b", "z"], [], rfl, Or.inr ⟨"b", ["z"], rfl, Or.inl rfl⟩⟩)

/-- C8: an emitted record certifies that every engine query the script
issued for the position succeeded with a score — the MultiPV query, the
preliminary scores of the selected alternative and of the backward move,
and the full scores of both.  Contrapositively, a failed or scoreless
query (each is consulted exactly once; there is no retry in the model or
the script) leaves the position without a record.  And a position whose
decision is `none` lets the move walk continue unchanged on the remaining
moves, as the third conjunct states; the final conjunct grounds the
statement on an oracle whose queries all raise. -/
theorem c8_engine_failure_disqualifies :
    (∀ (threshold : Int) (o : EngineOracle) (legalMoves : List String)
        (backwardUci : String) (r : PositionRecord),
      decidePosition threshold o legalMoves backwardUci = some r →
        (∃ results, o.multipv = Except.ok results ∧
          ∃ m, selectAlternative results backwardUci legalMoves = some m ∧
            (∃ v, o.prelimScore m = Except.ok (some v)) ∧
            (∃ v, o.fullScore m = Except.ok (some v))) ∧
        (∃ v, o.prelimScore backwardUci = Except.ok (some v)) ∧
        (∃ v, o.fullScore backwardUci = Except.ok (some v))) ∧
    (∀ (threshold : Int) (maxPositions : Nat) (s : MoveStep)
        (rest : List MoveStep) (moveNum : Nat) (acc : List PositionRecord),
      decidePosition threshold s.oracle s.legalMoves s.backwardUci = none →
      acc.length < maxPositions →
      processMoves threshold maxPositions (s :: rest) moveNum acc =
        processMoves threshold maxPositions rest
          (if s.turn = Color.white then moveNum + 1 else moveNum) acc) ∧
    decidePosition 300 failOracle ["b", "m"] "b" = none := by
  refine ⟨?_, ?_, rfl⟩
  · intro threshold o legalMoves backwardUci r h
    obtain ⟨_, _, ⟨bs, ks, hp, _⟩, hfb, hfa, _⟩ :=
      decidePosition_sound threshold o legalMoves backwardUci r h
    obtain ⟨results, hmp, hsel, hbs, hks⟩ :=
      prelimOutcome_sound o backwardUci legalMoves r.altUci bs ks hp
    exact ⟨⟨results, hmp, r.altUci, hsel, ⟨bs, hbs⟩, ⟨r.nextBestScore, hfa⟩⟩,
      ⟨ks, hks⟩, ⟨r.solutionScore, hfb⟩⟩
  · intro threshold maxPositions s rest moveNum acc hdec hlt
    have hsr : stepRecord threshold s = none := by
      unfold stepRecord
      split
      · exact hdec
      · rfl
    conv_lhs => rw [processMoves]
    simp only [hsr]
    by_cases h10 : (if s.turn = Color.white then moveNum + 1 else moveNum) ≤ 10
    · rw [if_pos h10]
    · rw [if_neg h10, if_neg (by omega)]

/-- No step can grow the collected list past the cap: the move loop checks
the length right after each potential append. -/
theorem processMoves_length_le :
    ∀ (threshold : Int) (maxPositions : Nat) (steps : List MoveStep)
      (moveNum : Nat) (acc : List PositionRecord),
      acc.length < maxPositions →
      (processMoves threshold maxPositions steps moveNum acc).length ≤
        maxPositions := by
  intro threshold maxPositions steps
  induction steps with
  | nil =>
    intro moveNum acc h
    unfold processMoves
    omega
  | cons s rest ih =>
    intro moveNum acc h
    unfold processMoves
    simp only
    by_cases h10 : (if s.turn = Color.white then moveNum + 1 else moveNum) ≤ 10
    · rw [if_pos h10]
      exact ih _ acc h
    · rw [if_neg h10]
      have hlen : (match stepRecord threshold s with
          | some r => acc ++ [r]
          | none => acc).length ≤ acc.length + 1 := by
        cases stepRecord threshold s <;> simp
      by_cases hge : maxPositions ≤ (match stepRecord threshold s with
          | some r => acc ++ [r]
          | none => acc).length
      · rw [if_pos hge]
        omega
      · rw [if_neg hge]
        exact ih _ _ (by omega)

/-- The game loop preserves the cap. -/
theorem processGames_length_le :
    ∀ (threshold : Int) (maxPositions : Nat) (games : List GameRec)
      (acc : List PositionRecord),
      acc.length ≤ maxPositions →
      (processGames threshold maxPositions games acc).length ≤ maxPositions := by
  intro threshold maxPositions games
  induction games with
  | nil =>
    intro acc h
    exact h
  | cons g rest ih =>
    intro acc h
    unfold processGames
    by_cases hge : maxPositions ≤ acc.length
    · rw [if_pos hge]
      exact h
    · rw [if_neg hge]
      by_cases helo : gameEloOk g
      · rw [if_pos helo]
        exact ih _ (processMoves_length_le threshold maxPositions g.moves 0 acc
          (by omega))
      · rw [if_neg helo]
        exact ih _ h

/-- C6: across a whole run, the collected positions never exceed the
configured maximum, and once the count has reached the maximum the game
loop scans no further game (it returns its accumulator unchanged, the
break at line 63). -/
theorem c6_position_cap :
    ∀ (threshold : Int) (maxPositions : Nat),
      (∀ games : List GameRec,
        (runFinder threshold maxPositions games).length ≤ maxPositions) ∧
      (∀ (games : List GameRec) (acc : List PositionRecord),
        maxPositions ≤ acc.length →
        processGames threshold maxPositions games acc = acc) := by
  intro threshold maxPositions
  constructor
  · intro games
    exact processGames_length_le threshold maxPositions games [] (by simp)
  · intro games acc h
    cases games with
    | nil => rfl
    | cons g rest =>
      unfold processGames
      rw [if_pos h]

/-- The segment from the random start to the end of the dataset is a
suffix. -/
theorem segmentRows_suffix (rows : List PuzzleRow) (r : Nat) (h1 : 1 ≤ r)
    (h2 : r ≤ rows.length) :
    segmentRows rows r rows.length = rows.drop (r - 1) := by
  unfold segmentRows
  rw [if_neg (by omega)]
  apply List.take_of_length_le
  rw [List.length_drop]
  omega

/-- The segment from row 1 to just before the random start is a prefix. -/
theorem segmentRows_initial (rows : List PuzzleRow) (r : Nat) (h1 : 1 ≤ r) :
    segmentRows rows 1 (r - 1) = rows.take (r - 1) := by
  unfold segmentRows
  by_cases h : r - 1 < 1
  · rw [if_pos h]
    have he : r - 1 = 0 := by omega
    rw [he]
    rfl
  · rw [if_neg h]
    rw [List.drop_zero]
    congr 1
    omega

/-- Whatever segment order the halving heuristic picks, every dataset row
is visited exactly once. -/
theorem visitOrder_perm (rows : List PuzzleRow) (r : Nat) (h1 : 1 ≤ r)
    (h2 : r ≤ rows.length) : (visitOrder rows r).Perm rows := by
  unfold visitOrder
  have hfull := segmentRows_suffix rows r h1 h2
  have hinit := segmentRows_initial rows r h1
  by_cases hc : rows.length / 2 < r
  · simp only [if_pos hc, hfull, hinit]
    rw [List.take_append_drop]
  · simp only [if_neg hc, hfull, hinit]
    exact List.perm_append_comm.trans
      (by rw [List.take_append_drop])

/-- With an inactive cap (`max_puzzles` falsy) every matching row in visit
order is collected. -/
theorem collectPuzzles_no_cap :
    ∀ (minRating maxRating : Int) (desired excluded : Option (List String))
      (cap : Nat) (rows : List PuzzleRow) (count : Nat),
      collectPuzzles minRating maxRating desired excluded false cap rows count =
        rows.filter (rowSelected minRating maxRating desired excluded) := by
  intro minRating maxRating desired excluded cap rows
  induction rows with
  | nil => intro count; rfl
  | cons row rest ih =>
    intro count
    unfold collectPuzzles
    by_cases hs : rowSelected minRating maxRating desired excluded row
    · rw [if_pos hs, List.filter_cons_of_pos hs]
      simp only [Bool.false_and, Bool.false_eq_true, if_false]
      rw [ih]
    · rw [if_neg hs, List.filter_cons_of_neg hs, ih]

/-- With an active cap the collection is the first `cap - count` matching
rows in visit order: the loop returns the moment the running count reaches
the cap. -/
theorem collectPuzzles_cap :
    ∀ (minRating maxRating : Int) (desired excluded : Option (List String))
      (cap : Nat) (rows : List PuzzleRow) (count : Nat),
      count < cap →
      collectPuzzles minRating maxRating desired excluded true cap rows count =
        (rows.filter (rowSelected minRating maxRating desired excluded)).take
          (cap - count) := by
  intro minRating maxRating desired excluded cap rows
  induction rows with
  | nil =>
    intro count h
    simp [collectPuzzles]
  | cons row rest ih =>
    intro count h
    unfold collectPuzzles
    by_cases hs : rowSelected minRating maxRating desired excluded row
    · rw [if_pos hs, List.filter_cons_of_pos hs]
      by_cases hc : cap ≤ count + 1
      · have he : cap - count = 1 := by omega
        rw [he]
        simp [hc]
      · have he : cap - count = (cap - (count + 1)) + 1 := by omega
        rw [he, List.take_succ_cons]
        simp only [Bool.true_and]
        rw [if_neg (by simpa using hc)]
        rw [ih (count + 1) (by omega)]
    · rw [if_neg hs, List.filter_cons_of_neg hs, ih count h]

/-- Counterexample to C7: on a three-row dataset with random start 3
(which is greater than `3 // 2 = 1`), the code visits rows 1, 2 and then
3 — not the wrap-around order 3, 1, 2 the claim describes — and with a
target count of 1 it selects the dataset's first row instead of the
random-start row. -/
theorem c7_counterexample :
    visitOrder [cexRowA, cexRowB, cexRowC] 3 = [cexRowA, cexRowB, cexRowC] ∧
    specVisitOrder [cexRowA, cexRowB, cexRowC] 3 = [cexRowC, cexRowA, cexRowB] ∧
    visitOrder [cexRowA, cexRowB, cexRowC] 3 ≠
      specVisitOrder [cexRowA, cexRowB, cexRowC] 3 ∧
    filterPuzzles [cexRowA, cexRowB, cexRowC] 3 1400 1800 none none (some 1) =
      [cexRowA] ∧
    cexRowA ≠ cexRowC := by
  exact ⟨rfl, rfl, by decide, by decide, by decide⟩

/-- C7 as amended: the dataset is scanned in the two segments
`[randomStart, total]` and `[1, randomStart - 1]`; when the random start
lies in the first half of the dataset the spec's wrap-around order (start
to end, then beginning to just before the start) is exactly what happens,
but when it lies in the second half the code processes the beginning
segment first and the random-start segment second.  In either order every
row is visited exactly once, and with an active target count `m` the scan
stops as soon as `m` matching rows have been found, returning the first
`m` matches in visit order (with no target, all matches in visit order). -/
theorem c7_scan_order_and_early_stop :
    ∀ (rows : List PuzzleRow) (randomStart : Nat),
      1 ≤ randomStart → randomStart ≤ rows.length →
      ((randomStart ≤ rows.length / 2 →
          visitOrder rows randomStart = specVisitOrder rows randomStart) ∧
        (visitOrder rows randomStart).Perm rows) ∧
      (∀ (minRating maxRating : Int) (desired excluded : Option (List String))
          (m : Nat), 0 < m →
        filterPuzzles rows randomStart minRating maxRating desired excluded
            (some m) =
          ((visitOrder rows randomStart).filter
            (rowSelected minRating maxRating desired excluded)).take m) ∧
      (∀ (minRating maxRating : Int) (desired excluded : Option (List String)),
        filterPuzzles rows randomStart minRating maxRating desired excluded
            none =
          (visitOrder rows randomStart).filter
            (rowSelected minRating maxRating desired excluded)) := by
  intro rows randomStart h1 h2
  refine ⟨⟨?_, visitOrder_perm rows randomStart h1 h2⟩, ?_, ?_⟩
  · intro hle
    unfold visitOrder specVisitOrder
    simp only
    rw [if_neg (by omega)]
  · intro minRating maxRating desired excluded m hm
    unfold filterPuzzles
    rw [if_neg (by omega)]
    simp only [Option.getD_some]
    rw [decide_eq_true (show m ≠ 0 by omega)]
    have := collectPuzzles_cap minRating maxRating desired excluded m
      (visitOrder rows randomStart) 0 hm
    simpa using this
  · intro minRating maxRating desired excluded
    unfold filterPuzzles
    rw [if_neg (by omega)]
    simp only [Option.getD_none]
    rw [show decide ((0 : Nat) ≠ 0) = false from rfl]
    exact collectPuzzles_no_cap minRating maxRating desired excluded 0
      (visitOrder rows randomStart) 0

/-- Witness for C7's amended statement on a two-row dataset with random
start 1 (first half, so the wrap-around order also holds). -/
theorem c7_witness :
    ((1 ≤ ([cexRowA, cexRowB] : List PuzzleRow).length / 2 →
        visitOrder [cexRowA, cexRowB] 1 = specVisitOrder [cexRowA, cexRowB] 1) ∧
      (visitOrder [cexRowA, cexRowB] 1).Perm [cexRowA, cexRowB]) ∧
    (∀ (minRating maxRating : Int) (desired excluded : Option (List String))
        (m : Nat), 0 < m →
      filterPuzzles [cexRowA, cexRowB] 1 minRating maxRating desired excluded
          (some m) =
        ((visitOrder [cexRowA, cexRowB] 1).filter
          (rowSelected minRating maxRating desired excluded)).take m) ∧
    (∀ (minRating maxRating : Int) (desired excluded : Option (List String)),
      filterPuzzles [cexRowA, cexRowB] 1 minRating maxRating desired excluded
          none =
        (visitOrder [cexRowA, cexRowB] 1).filter
          (rowSelected minRating maxRating desired excluded)) :=
  c7_scan_order_and_early_stop [cexRowA, cexRowB] 1 (by decide) (by decide)

/-- A game is written exactly when its score header is present, non-empty,
parses, and strictly exceeds the threshold, and its FEN header is present,
non-empty and splits into at least two whitespace-separated fields. -/
theorem classifyGame_written_iff (threshold : Int) (ss fen : Option String) :
    classifyGame threshold ss fen = GameOutcome.written ↔
      ∃ s v f, ss = some s ∧ s ≠ "" ∧ pyInt s = some v ∧ threshold < v ∧
        fen = some f ∧ f ≠ "" ∧ 1 < (pySplitWs f).length := by
  unfold classifyGame
  cases ss with
  | none => simp
  | some s =>
    by_cases hs : s = ""
    · simp [hs]
    · dsimp only
      rw [if_neg hs]
      cases hp : pyInt s with
      | none => simp [hp, hs]
      | some v =>
        cases fen with
        | none => simp [hp, hs]
        | some f =>
          by_cases hf : f = ""
          · simp [hf, hp, hs]
          · dsimp only
            rw [if_neg hf]
            cases hg : (pySplitWs f).get? 1 with
            | none =>
              have hlen : (pySplitWs f).length ≤ 1 := List.get?_eq_none.1 hg
              constructor
              · intro h
                exact absurd h (by simp)
              · intro ⟨s', v', f', hs', _, _, _, hf', _, hlen'⟩
                cases hs'
                cases hf'
                omega
            | some w =>
              have hlen : 1 < (pySplitWs f).length := by
                by_contra hle
                rw [List.get?_eq_none.2 (by omega)] at hg
                exact absurd hg (by simp)
              by_cases ht : threshold < v
              · rw [if_pos ht]
                constructor
                · intro _
                  exact ⟨s, v, f, rfl, hs, hp, ht, rfl, hf, hlen⟩
                · intro _
                  rfl
              · rw [if_neg ht]
                constructor
                · intro h
                  exact absurd h (by simp)
                · intro ⟨s', v', f', hs', _, hp', hv', _, _, _⟩
                  cases hs'
                  rw [hp] at hp'
                  cases hp'
                  omega

/-- A game increments the reported drop count exactly when its score
header is present, non-empty, parses, and is at most the threshold, and
its FEN header is present, non-empty and splits into at least two
whitespace-separated fields. -/
theorem classifyGame_counted_iff (threshold : Int) (ss fen : Option String) :
    classifyGame threshold ss fen = GameOutcome.counted ↔
      ∃ s v f, ss = some s ∧ s ≠ "" ∧ pyInt s = some v ∧ v ≤ threshold ∧
        fen = some f ∧ f ≠ "" ∧ 1 < (pySplitWs f).length := by
  unfold classifyGame
  cases ss with
  | none => simp
  | some s =>
    by_cases hs : s = ""
    · simp [hs]
    · dsimp only
      rw [if_neg hs]
      cases hp : pyInt s with
      | none => simp [hp, hs]
      | some v =>
        cases fen with
        | none => simp [hp, hs]
        | some f =>
          by_cases hf : f = ""
          · simp [hf, hp, hs]
          · dsimp only
            rw [if_neg hf]
            cases hg : (pySplitWs f).get? 1 with
            | none =>
              have hlen : (pySplitWs f).length ≤ 1 := List.get?_eq_none.1 hg
              constructor
              · intro h
                exact absurd h (by simp)
              · intro ⟨s', v', f', hs', _, _, _, hf', _, hlen'⟩
                cases hs'
                cases hf'
                omega
            | some w =>
              have hlen : 1 < (pySplitWs f).length := by
                by_contra hle
                rw [List.get?_eq_none.2 (by omega)] at hg
                exact absurd hg (by simp)
              by_cases ht : threshold < v
              · rw [if_pos ht]
                constructor
                · intro h
                  exact absurd h (by simp)
                · intro ⟨s', v', f', hs', _, hp', hv', _, _, _⟩
                  cases hs'
                  rw [hp] at hp'
                  cases hp'
                  omega
              · rw [if_neg ht]
                constructor
                · intro _
                  exact ⟨s, v, f, rfl, hs, hp, by omega, rfl, hf, hlen⟩
                · intro _
                  rfl

/-- The scan keeps exactly the written games, in order, and reports the
number of counted games. -/
theorem filterPgnByScore_sound :
    ∀ (threshold : Int) (games : List (Option String × Option String))
      (kept : List (Option String × Option String)) (dropped : Nat),
      filterPgnByScore threshold games = Except.ok (kept, dropped) →
        kept = games.filter
          (fun g => classifyGame threshold g.1 g.2 = GameOutcome.written) ∧
        dropped = (games.filter
          (fun g => classifyGame threshold g.1 g.2 = GameOutcome.counted)).length := by
  intro threshold games
  induction games with
  | nil =>
    intro kept dropped h
    cases h
    simp
  | cons g rest ih =>
    intro kept dropped h
    unfold filterPgnByScore at h
    cases hc : classifyGame threshold g.1 g.2 <;> rw [hc] at h
    case crash => exact absurd h (by simp)
    all_goals {
      cases hr : filterPgnByScore threshold rest <;> rw [hr] at h
      case error => exact absurd h (by simp)
      case ok p =>
        obtain ⟨ws, n⟩ := p
        obtain ⟨hkept, hdrop⟩ := ih ws n hr
        simp only [Except.ok.injEq, Prod.mk.injEq] at h
        obtain ⟨h1, h2⟩ := h
        subst h1 h2
        rw [List.filter_cons, List.filter_cons]
        simp [hc, hkept, hdrop]
    }


/-- Counterexample to C10: a game whose `SolutionScore` header is "500" —
which parses and strictly exceeds the default threshold of -200 — but which
has no `FEN` header is not written (the score comparison is nested under
`if fen:`), contradicting the claimed "written iff parseable score above
threshold"; it is not counted as dropped either. -/
theorem c10_counterexample :
    pyInt "500" = some 500 ∧ defaultScoreThreshold < 500 ∧
    classifyGame defaultScoreThreshold (some "500") none =
      GameOutcome.ignored ∧
    classifyGame defaultScoreThreshold (some "500") none ≠
      GameOutcome.written ∧
    classifyGame defaultScoreThreshold (some "500") none ≠
      GameOutcome.counted := by
  exact ⟨by decide, by decide, by decide, by decide, by decide⟩

/-- C10 as amended: a game is written iff it carries a non-empty
`SolutionScore` header parsing as an integer strictly greater than the
threshold AND a non-empty `FEN` header (splitting into at least two
whitespace-separated fields; a non-empty `FEN` with fewer fields raises an
uncaught `IndexError`); only games meeting the same score-parse and FEN
conditions with score at most the threshold increment the reported drop
count; games with a missing, empty or unparseable score, or with a missing
or empty FEN, are neither written nor counted.  The run keeps exactly the
written games in order and reports the counted total. -/
theorem c10_score_filter_characterisation :
    ∀ (threshold : Int) (ss fen : Option String),
      (classifyGame threshold ss fen = GameOutcome.written ↔
        ∃ s v f, ss = some s ∧ s ≠ "" ∧ pyInt s = some v ∧ threshold < v ∧
          fen = some f ∧ f ≠ "" ∧ 1 < (pySplitWs f).length) ∧
      (classifyGame threshold ss fen = GameOutcome.counted ↔
        ∃ s v f, ss = some s ∧ s ≠ "" ∧ pyInt s = some v ∧ v ≤ threshold ∧
          fen = some f ∧ f ≠ "" ∧ 1 < (pySplitWs f).length) ∧
      (∀ (games : List (Option String × Option String))
          (kept : List (Option String × Option String)) (dropped : Nat),
        filterPgnByScore threshold games = Except.ok (kept, dropped) →
          kept = games.filter
            (fun g => classifyGame threshold g.1 g.2 = GameOutcome.written) ∧
          dropped = (games.filter
            (fun g => classifyGame threshold g.1 g.2 =
              GameOutcome.counted)).length) := by
  intro threshold ss fen
  exact ⟨classifyGame_written_iff threshold ss fen,
    classifyGame_counted_iff threshold ss fen,
    fun games kept dropped h => filterPgnByScore_sound threshold games kept dropped h⟩
